import Mathlib

/-!
Verification of the CRNN audio-model notebook (`crnn_audio_model.ipynb`):
a shallow embedding of the training loop (`train_precomputed_crnn`), the
singleton-class filtering cell, the dataset wrapper
(`PrecomputedFeatureDataset.__getitem__`), the CRNN forward-pass shape
arithmetic (`PrecomputedFeatureCRNN.forward`), and the competition
scoring function (`score`), together with theorems settling the spec's
claims about them.
-/

namespace CrnnAudio

/-! ## Training loop (`train_precomputed_crnn`)

The loop's numeric constants, taken verbatim from the source:
`num_epochs = 50`, `best_auc = 0`, `patience = 7`, `wait = 0`.
Validation AUC values are modelled as rationals.  An epoch's AUC
computation is an `Option ℚ`: `some a` when `roc_auc_score` succeeds
with value `a`, `none` when it raises and the `except` branch runs. -/

def num_epochs : Nat := 50

def patience : Nat := 7

/-- The mutable state of one run of `train_precomputed_crnn`:
current epoch index, `best_auc`, the stall counter `wait`, the
`history['val_auc']` list, the best-checkpoint file contents
(`none` = no file written yet; model parameters are abstracted away,
keeping the `epoch` and `val_auc` fields of the saved dict), the log of
every `torch.save` to the best-model path, and the log of every
`scheduler.step(val_auc)` call. -/
structure TrainState where
  epoch : Nat
  bestAuc : ℚ
  wait : Nat
  histAuc : List ℚ
  checkpoint : Option (Nat × ℚ)
  saves : List (Nat × ℚ)
  schedSteps : List ℚ
  deriving Repr, DecidableEq

/-- Initial state at the top of the `for epoch in range(num_epochs)` loop. -/
def initState : TrainState :=
  { epoch := 0, bestAuc := 0, wait := 0, histAuc := [],
    checkpoint := none, saves := [], schedSteps := [] }

/-- The `val_auc` consumed by an epoch: the computed value on success,
otherwise `history['val_auc'][-1] if history['val_auc'] else 0`. -/
def epochAuc (hist : List ℚ) (r : Option ℚ) : ℚ :=
  match r with
  | some a => a
  | none =>
    match hist.getLast? with
    | some prev => prev
    | none => 0

/-- One epoch of the loop body after the train/validate phases: append
`val_auc` to the history, call `scheduler.step(val_auc)`, then the
checkpoint decision (`if val_auc > best_auc: save; wait = 0 else:
wait += 1; if wait >= patience: break`).  Returns the new state and
whether the loop `break`s. -/
def stepEpoch (s : TrainState) (r : Option ℚ) : TrainState × Bool :=
  let valAuc := epochAuc s.histAuc r
  let hist := s.histAuc ++ [valAuc]
  let sched := s.schedSteps ++ [valAuc]
  if valAuc > s.bestAuc then
    ({ epoch := s.epoch + 1, bestAuc := valAuc, wait := 0, histAuc := hist,
       checkpoint := some (s.epoch, valAuc),
       saves := s.saves ++ [(s.epoch, valAuc)], schedSteps := sched }, false)
  else
    ({ epoch := s.epoch + 1, bestAuc := s.bestAuc, wait := s.wait + 1,
       histAuc := hist, checkpoint := s.checkpoint, saves := s.saves,
       schedSteps := sched },
     decide (s.wait + 1 ≥ patience))

/-- The epoch loop with `n` epochs remaining: runs `stepEpoch` and stops
when it signals `break`.  The second component records whether the run
stopped early.  `f e` is epoch `e`'s AUC-computation outcome. -/
def runLoop : Nat → TrainState → (Nat → Option ℚ) → TrainState × Bool
  | 0, s, _ => (s, false)
  | n + 1, s, f =>
    let p := stepEpoch s (f s.epoch)
    if p.2 then (p.1, true) else runLoop n p.1 f

/-- `train_precomputed_crnn`'s epoch loop, from the initial state, for at
most `num_epochs` epochs. -/
def train_precomputed_crnn (f : Nat → Option ℚ) : TrainState × Bool :=
  runLoop num_epochs initState f

/-- The `Terminate` step's unconditional
`checkpoint = torch.load(best_model_path)`: fails when the best-model
file was never written. -/
def loadBestCheckpoint (file : Option (Nat × ℚ)) : Except String (Nat × ℚ) :=
  match file with
  | none => Except.error "FileNotFoundError"
  | some c => Except.ok c

/-! ## Singleton-class filtering (cell after `load_precomputed_features`)

The cell computes `label_counts = np.bincount(y)` and keeps exactly the
indices `i` with `label_counts[y[i]] >= 2`
(`valid_indices = np.isin(y, np.where(label_counts >= 2)[0])`), applying
the same boolean mask to `X` and to `y`.  Arrays are modelled as lists,
the parallel (feature, label) arrays as a zipped list for the mask on
`X`. -/

/-- `X[valid_indices], y[valid_indices]` for
`valid_indices = isin(y, classes with count >= 2)`. -/
def filterSingletons {α : Type} (xs : List α) (ys : List Nat) :
    List α × List Nat :=
  (((xs.zip ys).filter (fun p => 2 ≤ ys.count p.2)).map Prod.fst,
   ys.filter (fun c => 2 ≤ ys.count c))

/-! ## Dataset wrapper (`PrecomputedFeatureDataset.__getitem__`)

`__getitem__` adds a leading axis exactly when the stored entry is 2-D:
`if len(feature.shape) == 2: feature = feature[np.newaxis, :, :]`.
Only the shape is relevant to the claim, so the entry is modelled by its
shape, a list of dimension sizes. -/

/-- Shape of the feature tensor returned by `__getitem__` as a function
of the stored entry's shape. -/
def getitemShape (shape : List Nat) : List Nat :=
  if shape.length = 2 then 1 :: shape else shape

/-! ## Scoring function (`score`, second notebook)

A pandas `DataFrame` is modelled as an ordered list of named columns of
cells; a cell is either numeric (a rational) or a string.
`pandas.api.types.is_numeric_dtype(df.values)` holds exactly when every
cell of every column is numeric (any object column makes the combined
values array non-numeric).  `del df[col]` removes the column from the
frame *in place*; the model threads the mutated frames through the
result so the caller-visible tables after the call are explicit.
`sklearn.metrics.roc_auc_score(..., average='macro')` (an external
library call) is modelled by the standard Mann-Whitney formulation of
binary ROC-AUC, averaged unweighted over the scored columns. -/

/-- One cell of a pandas DataFrame. -/
inductive Cell where
  | num : ℚ → Cell
  | str : String → Cell
  deriving Repr, DecidableEq

/-- Whether a cell is numeric. -/
def Cell.isNum : Cell → Bool
  | num _ => true
  | str _ => false

/-- Numeric value of a cell (0 for a string cell; only used on columns
that passed the numeric check or are 0/1 indicators). -/
def Cell.toRat : Cell → ℚ
  | num q => q
  | str _ => 0

/-- A pandas DataFrame: ordered named columns. -/
structure DataFrame where
  cols : List (String × List Cell)
  deriving Repr, DecidableEq

/-- `del df[name]`: the frame with the named column removed. -/
def dropCol (df : DataFrame) (name : String) : DataFrame :=
  ⟨df.cols.filter (fun c => c.1 != name)⟩

/-- `pandas.api.types.is_numeric_dtype(df.values)`. -/
def frameNumeric (df : DataFrame) : Bool :=
  df.cols.all (fun c => c.2.all Cell.isNum)

/-- Column lookup `df[n]` by name (first match; `[]` if absent). -/
def getCol (df : DataFrame) (n : String) : List Cell :=
  match df.cols.find? (fun c => c.1 == n) with
  | some c => c.2
  | none => []

/-- Contribution of one (positive, negative) score pair to the
Mann-Whitney count: 1 if the positive outranks, 1/2 on a tie. -/
def pairScore (sp sn : ℚ) : ℚ :=
  if sn < sp then 1 else if sp = sn then 1 / 2 else 0

/-- Binary ROC-AUC of one column: labels (0/1) paired with scores,
`(#correctly ordered pairs + ties/2) / (P * N)`. -/
def binaryAuc (labels scores : List ℚ) : ℚ :=
  let pr := labels.zip scores
  let pos := (pr.filter (fun p => decide (p.1 = 1))).map Prod.snd
  let neg := (pr.filter (fun p => decide (¬ p.1 = 1))).map Prod.snd
  ((pos.map (fun sp => (neg.map (fun sn => pairScore sp sn)).sum)).sum) /
    ((pos.length : ℚ) * (neg.length : ℚ))

/-- The two failure modes of `score`: the `ParticipantVisibleError`
raised on non-numeric submission values, and the `assert` on an empty
`scored_columns`. -/
inductive ScoreErr where
  | participantVisible
  | assertionFailed
  deriving Repr, DecidableEq

/-- Result of a call to `score`: the returned value or raised error,
plus the caller-visible solution and submission frames after the call
(`del` mutates them in place). -/
structure ScoreResult where
  result : Except ScoreErr ℚ
  solution : DataFrame
  submission : DataFrame

/-- The competition metric `score(solution, submission,
row_id_column_name)`: deletes the row-id column from both frames,
raises on non-numeric submission values, selects the solution columns
with positive column sum (`solution_sums > 0`), asserts they are
nonempty, and returns the macro-averaged ROC-AUC over them. -/
def score (solution submission : DataFrame) (row_id_column_name : String) :
    ScoreResult :=
  let sol := dropCol solution row_id_column_name
  let sub := dropCol submission row_id_column_name
  if frameNumeric sub = false then
    { result := Except.error ScoreErr.participantVisible,
      solution := sol, submission := sub }
  else
    let scored := (sol.cols.filter
      (fun c => decide (0 < (c.2.map Cell.toRat).sum))).map Prod.fst
    if scored.length = 0 then
      { result := Except.error ScoreErr.assertionFailed,
        solution := sol, submission := sub }
    else
      let aucs := scored.map (fun n =>
        binaryAuc ((getCol sol n).map Cell.toRat)
          ((getCol sub n).map Cell.toRat))
      { result := Except.ok (aucs.sum / (scored.length : ℚ)),
        solution := sol, submission := sub }

/-- Following the spec's words, for comparison with the code's
`solution_sums > 0` selection: the label columns of a frame with at
least one positive (= 1) ground-truth row. -/
def positiveColumns (df : DataFrame) : List (String × List Cell) :=
  df.cols.filter (fun col => decide (Cell.num 1 ∈ col.2))

/-- Macro-averaged ROC-AUC of the named columns: the unweighted mean of
the per-column binary AUCs of solution against submission. -/
def macroAuc (sol sub : DataFrame) (names : List String) : ℚ :=
  ((names.map (fun n => binaryAuc ((getCol sol n).map Cell.toRat)
    ((getCol sub n).map Cell.toRat))).sum) / (names.length : ℚ)

/-! ## CRNN forward pass (`PrecomputedFeatureCRNN.forward`)

Shape semantics of every tensor operation in `forward`, faithful to
PyTorch's shape arithmetic (`Option` = the runtime shape check of the
layer; `none` = a shape mismatch error).  Shapes are lists of dimension
sizes, batch-first. -/

/-- Spatial output size of `nn.Conv2d` with kernel `k`, padding `p`,
stride 1: `h + 2p - k + 1`. -/
def conv2dOut (k p h : Nat) : Nat := h + 2 * p - k + 1

/-- Spatial output size of `nn.MaxPool2d(kernel_size=2, stride=2)`. -/
def maxPool2Out (h : Nat) : Nat := h / 2

/-- One block of `self.features`: `Conv2d(cin, cout, 3, padding=1)`,
`BatchNorm2d(cout)`, `ReLU`, `MaxPool2d(2, 2)`, `Dropout` (batch norm,
ReLU and dropout preserve shape). -/
def cnnBlockShape (cin cout : Nat) : List Nat → Option (List Nat)
  | [b, c, h, w] =>
    if c = cin then
      some [b, cout, maxPool2Out (conv2dOut 3 1 h), maxPool2Out (conv2dOut 3 1 w)]
    else none
  | _ => none

/-- `self.features`: the three CNN blocks, channels 1 → 64 → 128 → 256. -/
def featuresShape (s : List Nat) : Option (List Nat) :=
  ((cnnBlockShape 1 64 s).bind (cnnBlockShape 64 128)).bind (cnnBlockShape 128 256)

/-- `features.permute(0, 3, 1, 2)` followed by
`features.reshape(batch_size, features.size(1), -1)`:
`[b, c, h, w] → [b, w, c, h] → [b, w, c * h]`. -/
def permuteReshapeShape : List Nat → Option (List Nat)
  | [b, c, h, w] => some [b, w, c * h]
  | _ => none

/-- `self.gru` (bidirectional, `batch_first=True`): checks the input
feature size and yields per-step hidden vectors of size `2 * hidden`. -/
def gruShape (inputSize hidden : Nat) : List Nat → Option (List Nat)
  | [b, t, i] => if i = inputSize then some [b, t, 2 * hidden] else none
  | _ => none

/-- `nn.Linear(inF, outF)` applied to a rank-3 input (acts on the last
dimension); `Tanh` preserves shape. -/
def linear3Shape (inF outF : Nat) : List Nat → Option (List Nat)
  | [b, t, i] => if i = inF then some [b, t, outF] else none
  | _ => none

/-- `.squeeze(-1)` on a rank-3 tensor: drops the last dimension exactly
when it equals 1. -/
def squeezeLast : List Nat → Option (List Nat)
  | [b, t, o] => if o = 1 then some [b, t] else some [b, t, o]
  | _ => none

/-- `.unsqueeze(1)` on a rank-2 tensor: inserts a singleton dimension. -/
def unsqueeze1 : List Nat → Option (List Nat)
  | [b, t] => some [b, 1, t]
  | _ => none

/-- `torch.bmm`: `[b, n, m] × [b, m, p] → [b, n, p]` with matching batch
and inner dimensions. -/
def bmmShape : List Nat → List Nat → Option (List Nat)
  | [b, n, m], [b2, m2, p] =>
    if b = b2 ∧ m = m2 then some [b, n, p] else none
  | _, _ => none

/-- `.squeeze(1)` on a rank-3 tensor: drops dimension 1 exactly when it
equals 1. -/
def squeeze1 : List Nat → Option (List Nat)
  | [b, o, d] => if o = 1 then some [b, d] else some [b, o, d]
  | _ => none

/-- `nn.Linear(inF, outF)` applied to a rank-2 input. -/
def linear2Shape (inF outF : Nat) : List Nat → Option (List Nat)
  | [b, i] => if i = inF then some [b, outF] else none
  | _ => none

/-- `nn.BatchNorm1d(nf)` on a rank-2 input: checks the feature size,
preserves shape. -/
def batchNorm1dShape (nf : Nat) : List Nat → Option (List Nat)
  | [b, i] => if i = nf then some [b, i] else none
  | _ => none

/-- `gru_hidden_size=256` from the model constructor. -/
def gru_hidden_size : Nat := 256

/-- Shape of `PrecomputedFeatureCRNN.forward`: CNN features, permute +
reshape to a time sequence, GRU (`input_size=16*256`), attention scorer
(`Linear(512, 64)`, `Tanh`, `Linear(64, 1)`), `squeeze(-1)`, softmax
(shape-preserving), `unsqueeze(1)`, `bmm` with the GRU output,
`squeeze(1)`, classifier (`Linear(512, 512)`, `BatchNorm1d(512)`,
`ReLU`, `Dropout`, `Linear(512, num_classes)`). -/
def crnnForwardShape (num_classes : Nat) (x : List Nat) : Option (List Nat) := do
  let f ← featuresShape x
  let seq ← permuteReshapeShape f
  let g ← gruShape (16 * 256) gru_hidden_size seq
  let a1 ← linear3Shape (gru_hidden_size * 2) 64 g
  let a2 ← linear3Shape 64 1 a1
  let aw ← squeezeLast a2
  let awU ← unsqueeze1 aw
  let ctx3 ← bmmShape awU g
  let ctx ← squeeze1 ctx3
  let c1 ← linear2Shape (gru_hidden_size * 2) 512 ctx
  let c2 ← batchNorm1dShape 512 c1
  linear2Shape 512 num_classes c2

/-- Softmax over a finite index set, written with the exponentiated
scores as input: `F.softmax(s, dim)` sends `s` to
`exp s / ∑ exp s`, and the only property of the (floating-point)
exponential the claims rely on is that its outputs are strictly
positive, so the embedding takes the positive vector `exps = exp ∘ s`
directly. -/
def softmax {n : Nat} (exps : Fin n → ℚ) : Fin n → ℚ :=
  fun i => exps i / ∑ j, exps j

/-- One batch row of `torch.bmm(attn_weights, gru_out).squeeze(1)`:
the context vector `context j = ∑ t, w t * h t j`. -/
def bmmRow {t d : Nat} (w : Fin t → ℚ) (h : Fin t → Fin d → ℚ) :
    Fin d → ℚ :=
  fun j => ∑ k, w k * h k j

/-! ## Helper lemmas about the training loop -/

theorem foldl_max_append (l : List ℚ) (v : ℚ) :
    (l ++ [v]).foldl max 0 = max (l.foldl max 0) v := by
  simp [List.foldl_append]

theorem stepEpoch_epoch (s : TrainState) (r : Option ℚ) :
    (stepEpoch s r).1.epoch = s.epoch + 1 := by
  simp only [stepEpoch]
  split <;> rfl

theorem stepEpoch_histAuc (s : TrainState) (r : Option ℚ) :
    (stepEpoch s r).1.histAuc = s.histAuc ++ [epochAuc s.histAuc r] := by
  simp only [stepEpoch]
  split <;> rfl

theorem stepEpoch_schedSteps (s : TrainState) (r : Option ℚ) :
    (stepEpoch s r).1.schedSteps = s.schedSteps ++ [epochAuc s.histAuc r] := by
  simp only [stepEpoch]
  split <;> rfl

theorem stepEpoch_congr (s : TrainState) (r r' : Option ℚ)
    (h : epochAuc s.histAuc r = epochAuc s.histAuc r') :
    stepEpoch s r = stepEpoch s r' := by
  simp only [stepEpoch, h]

theorem stepEpoch_wait_cases (s : TrainState) (r : Option ℚ) :
    (stepEpoch s r).1.wait = 0 ∨ (stepEpoch s r).1.wait = s.wait + 1 := by
  simp only [stepEpoch]
  split
  · exact Or.inl rfl
  · exact Or.inr rfl

theorem stepEpoch_break_iff (s : TrainState) (r : Option ℚ) :
    (stepEpoch s r).2 = true ↔ patience ≤ (stepEpoch s r).1.wait := by
  simp only [stepEpoch]
  split
  · simp [patience]
  · simp [patience]

theorem runLoop_epoch_le (n : Nat) (s : TrainState) (f : Nat → Option ℚ) :
    (runLoop n s f).1.epoch ≤ s.epoch + n := by
  induction n generalizing s with
  | zero => simp [runLoop]
  | succ m ih =>
    simp only [runLoop]
    split
    · rw [stepEpoch_epoch]; omega
    · calc (runLoop m (stepEpoch s (f s.epoch)).1 f).1.epoch
          ≤ (stepEpoch s (f s.epoch)).1.epoch + m := ih _
        _ ≤ s.epoch + (m + 1) := by rw [stepEpoch_epoch]; omega

theorem runLoop_wait (n : Nat) (s : TrainState) (f : Nat → Option ℚ)
    (hw : s.wait < patience) :
    ((runLoop n s f).2 = true ∧ (runLoop n s f).1.wait = patience) ∨
    ((runLoop n s f).2 = false ∧ (runLoop n s f).1.wait < patience) := by
  induction n generalizing s with
  | zero => exact Or.inr ⟨rfl, hw⟩
  | succ m ih =>
    simp only [runLoop]
    split
    · rename_i hbr
      refine Or.inl ⟨rfl, ?_⟩
      have hge := (stepEpoch_break_iff s (f s.epoch)).1 hbr
      rcases stepEpoch_wait_cases s (f s.epoch) with h0 | h1
      · rw [h0] at hge; exact absurd hge (by simp [patience])
      · rw [h1] at hge ⊢; omega
    · rename_i hbr
      apply ih
      have hnot : ¬ patience ≤ (stepEpoch s (f s.epoch)).1.wait := by
        intro hle
        exact hbr ((stepEpoch_break_iff s (f s.epoch)).2 hle)
      omega

theorem runLoop_no_improvement (n : Nat) (s : TrainState) (f : Nat → Option ℚ)
    (hh : ∀ a ∈ s.histAuc, a ≤ 0) (hb : s.bestAuc = 0)
    (hf : ∀ e a, f e = some a → a ≤ 0) :
    (runLoop n s f).1.checkpoint = s.checkpoint ∧
    (runLoop n s f).1.saves = s.saves := by
  induction n generalizing s with
  | zero => exact ⟨rfl, rfl⟩
  | succ m ih =>
    have hv : epochAuc s.histAuc (f s.epoch) ≤ 0 := by
      cases hr : f s.epoch with
      | some a => exact hf _ _ hr
      | none =>
        simp only [epochAuc]
        cases hl : s.histAuc.getLast? with
        | some prev =>
          apply hh
          rcases List.mem_getLast?_eq_getLast (l := s.histAuc) (x := prev)
            (by rw [hl]; rfl) with ⟨hne, he⟩
          rw [he]
          exact List.getLast_mem hne
        | none => exact le_refl 0
    have hcond : ¬ epochAuc s.histAuc (f s.epoch) > s.bestAuc := by
      rw [hb]; exact not_lt.2 hv
    simp only [runLoop, stepEpoch, if_neg hcond]
    simp only [decide_eq_true_eq]
    split
    · exact ⟨rfl, rfl⟩
    · exact ih _ (by
        intro a ha
        rcases List.mem_append.1 ha with h | h
        · exact hh a h
        · rw [List.mem_singleton.1 h]; exact hv) hb

/-! ## Claim theorems: training loop -/

/-- C1: in any epoch of the training loop, a best-model checkpoint
(model parameters with epoch index and validation AUC) is persisted if
and only if that epoch's validation AUC strictly exceeds the best
validation AUC seen in all previous epochs (taken together with the
initial `best_auc = 0`, so the best over an empty history is 0, which is
how the loop initializes `best_auc`); when it is persisted the stall
counter `wait` is reset to 0, and otherwise the checkpoint file is left
alone and the stall counter is incremented.  The hypothesis is the loop
invariant `best_auc = max over the AUC history`, which holds in the
initial state (first conjunct) and is preserved by every epoch (second
conjunct), so it holds at every reachable state. -/
theorem checkpoint_iff_strict_improvement (s : TrainState) (r : Option ℚ)
    (hb : s.bestAuc = s.histAuc.foldl max 0) :
    initState.bestAuc = initState.histAuc.foldl max 0 ∧
    (stepEpoch s r).1.bestAuc = (stepEpoch s r).1.histAuc.foldl max 0 ∧
    (((stepEpoch s r).1.checkpoint = some (s.epoch, epochAuc s.histAuc r) ∧
      (stepEpoch s r).1.saves = s.saves ++ [(s.epoch, epochAuc s.histAuc r)] ∧
      (stepEpoch s r).1.wait = 0) ↔
      s.histAuc.foldl max 0 < epochAuc s.histAuc r) ∧
    (¬ s.histAuc.foldl max 0 < epochAuc s.histAuc r →
      (stepEpoch s r).1.checkpoint = s.checkpoint ∧
      (stepEpoch s r).1.saves = s.saves ∧
      (stepEpoch s r).1.wait = s.wait + 1) := by
  refine ⟨rfl, ?_, ?_, ?_⟩
  · by_cases h : epochAuc s.histAuc r > s.bestAuc
    · simp only [stepEpoch, if_pos h]
      rw [foldl_max_append, ← hb]
      exact (max_eq_right (le_of_lt h)).symm
    · simp only [stepEpoch, if_neg h]
      rw [foldl_max_append, ← hb]
      exact (max_eq_left (not_lt.1 h)).symm
  · by_cases h : epochAuc s.histAuc r > s.bestAuc
    · simp only [stepEpoch, if_pos h]
      constructor
      · intro _
        rw [← hb]; exact h
      · intro _
        simp
    · simp only [stepEpoch, if_neg h]
      constructor
      · rintro ⟨-, hsv, -⟩
        exact absurd hsv (by simp)
      · intro hlt
        rw [← hb] at hlt
        exact absurd hlt h
  · intro hnot
    have h : ¬ epochAuc s.histAuc r > s.bestAuc := by rw [hb]; exact hnot
    simp only [stepEpoch, if_neg h]
    simp

/-- Witness for C1 at the initial state and a successful AUC of 1/2:
the invariant hypothesis holds and a checkpoint is persisted. -/
theorem checkpoint_iff_strict_improvement_witness :
    initState.bestAuc = initState.histAuc.foldl max 0 ∧
    ((stepEpoch initState (some (1 / 2))).1.checkpoint =
        some (initState.epoch, epochAuc initState.histAuc (some (1 / 2))) ∧
      (stepEpoch initState (some (1 / 2))).1.saves =
        initState.saves ++
          [(initState.epoch, epochAuc initState.histAuc (some (1 / 2)))] ∧
      (stepEpoch initState (some (1 / 2))).1.wait = 0) :=
  ⟨rfl, ((checkpoint_iff_strict_improvement initState (some (1 / 2))
    rfl).2.2.1).2 (by norm_num [initState, epochAuc])⟩

/-- C2: for every run of the training loop, the loop never completes
more than `num_epochs = 50` epochs; the per-epoch `break` fires exactly
when the stall counter reaches `patience = 7`; when the run stops early
the final stall counter equals exactly 7 (never less — the streak of
consecutive non-improving epochs has just reached the patience
threshold for the first time, every earlier state having a strictly
shorter streak), and when the run is not stopped early the stall counter
stayed strictly below 7 throughout, so no shorter streak ever triggers
the stop. -/
theorem early_stopping_at_patience (f : Nat → Option ℚ) :
    (train_precomputed_crnn f).1.epoch ≤ num_epochs ∧
    (∀ (s : TrainState) (r : Option ℚ),
      (stepEpoch s r).2 = true ↔ patience ≤ (stepEpoch s r).1.wait) ∧
    ((train_precomputed_crnn f).2 = true →
      (train_precomputed_crnn f).1.wait = patience) ∧
    ((train_precomputed_crnn f).2 = false →
      (train_precomputed_crnn f).1.wait < patience) := by
  refine ⟨?_, stepEpoch_break_iff, ?_, ?_⟩
  · have := runLoop_epoch_le num_epochs initState f
    simpa [initState, train_precomputed_crnn] using this
  · intro hearly
    rcases runLoop_wait num_epochs initState f (by simp [initState, patience])
      with ⟨-, hw⟩ | ⟨hf, -⟩
    · exact hw
    · rw [train_precomputed_crnn] at hearly
      rw [hearly] at hf
      exact absurd hf (by simp)
  · intro hfull
    rcases runLoop_wait num_epochs initState f (by simp [initState, patience])
      with ⟨ht, -⟩ | ⟨-, hw⟩
    · rw [train_precomputed_crnn] at hfull
      rw [hfull] at ht
      exact absurd ht (by simp)
    · exact hw

/-- Witness for C2 on the run in which every epoch's AUC computation
fails: it stops early with a stall counter of exactly `patience`. -/
theorem early_stopping_at_patience_witness :
    (train_precomputed_crnn (fun _ => none)).2 = true ∧
    (train_precomputed_crnn (fun _ => none)).1.wait = patience :=
  ⟨by decide,
   (early_stopping_at_patience (fun _ => none)).2.2.1 (by decide)⟩

/-- C5: an epoch whose validation-AUC computation fails (the `except`
branch) does not abort the loop: it behaves exactly like an epoch whose
AUC computation returned the fallback value
`history['val_auc'][-1] if history['val_auc'] else 0` — the previous
epoch's AUC, or 0 on the very first epoch when no previous value exists.
In particular that value is appended to the AUC history and passed to
`scheduler.step`, and (by the first conjunct) the checkpoint decision
and the early-stopping test consume it exactly as a computed value. -/
theorem auc_failure_reuses_previous (s : TrainState) :
    stepEpoch s none = stepEpoch s (some (s.histAuc.getLast?.getD 0)) ∧
    epochAuc s.histAuc none = s.histAuc.getLast?.getD 0 ∧
    (stepEpoch s none).1.histAuc = s.histAuc ++ [s.histAuc.getLast?.getD 0] ∧
    (stepEpoch s none).1.schedSteps =
      s.schedSteps ++ [s.histAuc.getLast?.getD 0] := by
  have h : epochAuc s.histAuc none = s.histAuc.getLast?.getD 0 := by
    simp only [epochAuc]
    cases hl : s.histAuc.getLast? <;> simp
  refine ⟨stepEpoch_congr s none _ h, h, ?_, ?_⟩
  · rw [stepEpoch_histAuc, h]
  · rw [stepEpoch_schedSteps, h]

/-- C10: if no epoch's computed validation AUC is ever strictly greater
than the initial `best_auc = 0` (in particular when the AUC computation
fails on every epoch, making every fallback value 0), the run writes no
best-model checkpoint (`torch.save` is never called on the best-model
path), and the terminate step's unconditional
`torch.load(best_model_path)` fails with a file-not-found error instead
of returning a trained model. -/
theorem no_improvement_no_checkpoint (f : Nat → Option ℚ)
    (hf : ∀ e a, f e = some a → a ≤ 0) :
    (train_precomputed_crnn f).1.checkpoint = none ∧
    (train_precomputed_crnn f).1.saves = [] ∧
    loadBestCheckpoint (train_precomputed_crnn f).1.checkpoint =
      Except.error "FileNotFoundError" := by
  have h := runLoop_no_improvement num_epochs initState f
    (by intro a ha; simp [initState] at ha) rfl hf
  rw [train_precomputed_crnn]
  refine ⟨h.1, h.2, ?_⟩
  rw [h.1]
  rfl

/-- Witness for C10: the run in which every epoch's AUC computation
fails writes no checkpoint and the final reload fails. -/
theorem no_improvement_no_checkpoint_witness :
    (train_precomputed_crnn (fun _ => none)).1.checkpoint = none ∧
    (train_precomputed_crnn (fun _ => none)).1.saves = [] ∧
    loadBestCheckpoint (train_precomputed_crnn (fun _ => none)).1.checkpoint =
      Except.error "FileNotFoundError" :=
  no_improvement_no_checkpoint (fun _ => none)
    (fun _ _ h => Option.noConfusion h)

/-! ## Claim theorems: singleton-class filtering and dataset wrapper -/

/-- C3: for parallel feature/label arrays, after the singleton-class
filtering step (which keeps exactly the indices whose class has count
at least 2 in the original labels): (1) every class still present in
the retained labels has at least 2 examples; (2) a class that had at
least 2 examples keeps all of them (same multiplicity); (3) no
(feature, label) pair of a class with at least 2 examples is removed
(same multiplicity among the retained pairs); (4) the retained feature
pairs and the retained labels are the same mask applied in parallel:
projecting the retained pairs to their labels gives exactly the
retained label array. -/
theorem singleton_filter_correct {α : Type} [DecidableEq α]
    (xs : List α) (ys : List Nat) (hlen : xs.length = ys.length) :
    (∀ c ∈ (filterSingletons xs ys).2,
      2 ≤ (filterSingletons xs ys).2.count c) ∧
    (∀ c, 2 ≤ ys.count c → (filterSingletons xs ys).2.count c = ys.count c) ∧
    (∀ p : α × Nat, 2 ≤ ys.count p.2 →
      ((xs.zip ys).filter (fun q => 2 ≤ ys.count q.2)).count p =
        (xs.zip ys).count p) ∧
    (((xs.zip ys).filter (fun q => 2 ≤ ys.count q.2)).map Prod.snd =
      (filterSingletons xs ys).2) := by
  refine ⟨?_, ?_, ?_, ?_⟩
  · intro c hc
    have hp : 2 ≤ ys.count c := by
      have := List.of_mem_filter hc
      simpa using this
    have : (filterSingletons xs ys).2.count c = ys.count c :=
      List.count_filter (by simpa using hp)
    rw [this]
    exact hp
  · intro c hp
    exact List.count_filter (by simpa using hp)
  · intro p hp
    exact List.count_filter (by simpa using hp)
  · show _ = ys.filter (fun c => 2 ≤ ys.count c)
    have hmap : (xs.zip ys).map Prod.snd = ys :=
      List.map_snd_zip xs ys (le_of_eq hlen.symm)
    calc ((xs.zip ys).filter (fun q => 2 ≤ ys.count q.2)).map Prod.snd
        = ((xs.zip ys).map Prod.snd).filter (fun c => 2 ≤ ys.count c) := by
          simp [List.filter_map]
          rfl
      _ = ys.filter (fun c => 2 ≤ ys.count c) := by rw [hmap]

/-- Witness for C3 on features `["a","b","c","d"]` with labels
`[0, 1, 0, 2]` (classes 1 and 2 are singletons): after filtering every
remaining class has at least two examples. -/
theorem singleton_filter_correct_witness :
    (["a", "b", "c", "d"] : List String).length =
      ([0, 1, 0, 2] : List Nat).length ∧
    (∀ c ∈ (filterSingletons ["a", "b", "c", "d"] [0, 1, 0, 2]).2,
      2 ≤ (filterSingletons ["a", "b", "c", "d"] [0, 1, 0, 2]).2.count c) :=
  ⟨rfl, (singleton_filter_correct ["a", "b", "c", "d"] [0, 1, 0, 2] rfl).1⟩

/-- C4: for every feature entry of the Dataset Wrapper, whether it is
2-D (frequency × time) or already carries the (singleton) channel axis
the data model prescribes, the tensor returned by `__getitem__` is
rank 3 with leading channel dimension equal to 1. -/
theorem getitem_channel_dim (s : List Nat)
    (h : s.length = 2 ∨ (s.length = 3 ∧ s.head? = some 1)) :
    (getitemShape s).head? = some 1 ∧ (getitemShape s).length = 3 := by
  rcases h with h2 | ⟨h3, hh⟩
  · simp [getitemShape, h2]
  · have hne : ¬ s.length = 2 := by omega
    simp [getitemShape, hne, hh, h3]

/-- Witness for C4 on a 2-D entry of shape 128 × 256. -/
theorem getitem_channel_dim_witness :
    (([128, 256] : List Nat).length = 2 ∨
      (([128, 256] : List Nat).length = 3 ∧
        ([128, 256] : List Nat).head? = some 1)) ∧
    ((getitemShape [128, 256]).head? = some 1 ∧
      (getitemShape [128, 256]).length = 3) :=
  ⟨Or.inl rfl, getitem_channel_dim [128, 256] (Or.inl rfl)⟩

/-! ## Claim theorems: scoring function -/

/-- C6: after the row-identifier column is dropped, `score` raises the
participant-visible error exactly when some remaining submission column
contains a non-numeric value; when every submission column is numeric
this error is never raised (the call returns a value or fails only with
the `assert`). -/
theorem score_participant_visible_iff
    (solution submission : DataFrame) (rowId : String) :
    (score solution submission rowId).result =
      Except.error ScoreErr.participantVisible ↔
    ∃ col ∈ (dropCol submission rowId).cols, ∃ c ∈ col.2,
      c.isNum = false := by
  have key : (frameNumeric (dropCol submission rowId) = false) ↔
      ∃ col ∈ (dropCol submission rowId).cols, ∃ c ∈ col.2,
        c.isNum = false := by
    simp [frameNumeric]
  rw [← key]
  unfold score
  by_cases h : frameNumeric (dropCol submission rowId) = false
  · simp [h]
  · simp only [if_neg h]
    constructor
    · intro hres
      split at hres <;> simp_all
    · intro hfk
      exact absurd hfk h

theorem score_solution_eq (solution submission : DataFrame)
    (rowId : String) :
    (score solution submission rowId).solution = dropCol solution rowId := by
  simp only [score]
  split
  · rfl
  · split <;> rfl

theorem score_submission_eq (solution submission : DataFrame)
    (rowId : String) :
    (score solution submission rowId).submission =
      dropCol submission rowId := by
  simp only [score]
  split
  · rfl
  · split <;> rfl

/-- C9 counterexample: the claim that `score` leaves the caller's
solution table unchanged fails on a concrete input — `del
solution[row_id_column_name]` removes the row-identifier column from
the frame the caller passed in. -/
theorem score_purity_counterexample :
    (score ⟨[("id", [Cell.num 0]), ("a", [Cell.num 1])]⟩
        ⟨[("id", [Cell.num 0]), ("a", [Cell.num 1])]⟩ "id").solution ≠
      ⟨[("id", [Cell.num 0]), ("a", [Cell.num 1])]⟩ := by
  rw [score_solution_eq]
  decide

/-- C9 (amended): `score` returns the scalar result but mutates its
inputs: after the call the caller's solution and submission tables are
exactly the original tables with the row-identifier column deleted in
place — every column named otherwise survives unchanged and in order,
and only identifier-named columns are removed. -/
theorem score_frame_effect (solution submission : DataFrame)
    (rowId : String) :
    (score solution submission rowId).solution = dropCol solution rowId ∧
    (score solution submission rowId).submission =
      dropCol submission rowId ∧
    (score solution submission rowId).solution.cols =
      solution.cols.filter (fun c => c.1 != rowId) ∧
    (∀ col ∈ solution.cols, col.1 ≠ rowId →
      col ∈ (score solution submission rowId).solution.cols) ∧
    (∀ col ∈ (score solution submission rowId).solution.cols,
      col.1 ≠ rowId ∧ col ∈ solution.cols) := by
  have hsol := score_solution_eq solution submission rowId
  have hsub := score_submission_eq solution submission rowId
  refine ⟨hsol, hsub, by rw [hsol]; rfl, ?_, ?_⟩
  · intro col hmem hne
    rw [hsol]
    simp only [dropCol, List.mem_filter]
    exact ⟨hmem, by simpa using hne⟩
  · intro col hmem
    rw [hsol] at hmem
    simp only [dropCol, List.mem_filter] at hmem
    exact ⟨by simpa using hmem.2, hmem.1⟩

/-- Witness for C9 (amended) on a two-column table: the row-id column
is gone from the caller's table after the call, the other column
survives. -/
theorem score_frame_effect_witness :
    (score ⟨[("id", [Cell.num 0]), ("a", [Cell.num 1])]⟩
        ⟨[("id", [Cell.num 0]), ("a", [Cell.num 1])]⟩ "id").solution =
      dropCol ⟨[("id", [Cell.num 0]), ("a", [Cell.num 1])]⟩ "id" ∧
    ("a", [Cell.num 1]) ∈
      (score ⟨[("id", [Cell.num 0]), ("a", [Cell.num 1])]⟩
        ⟨[("id", [Cell.num 0]), ("a", [Cell.num 1])]⟩ "id").solution.cols :=
  ⟨(score_frame_effect ⟨[("id", [Cell.num 0]), ("a", [Cell.num 1])]⟩
      ⟨[("id", [Cell.num 0]), ("a", [Cell.num 1])]⟩ "id").1,
   (score_frame_effect ⟨[("id", [Cell.num 0]), ("a", [Cell.num 1])]⟩
      ⟨[("id", [Cell.num 0]), ("a", [Cell.num 1])]⟩ "id").2.2.2.1
     ("a", [Cell.num 1]) (by simp) (by decide)⟩

theorem indicator_sum_nonneg (cells : List Cell)
    (h : ∀ c ∈ cells, c = Cell.num 0 ∨ c = Cell.num 1) :
    0 ≤ (cells.map Cell.toRat).sum := by
  apply List.sum_nonneg
  intro x hx
  rcases List.mem_map.1 hx with ⟨c, hc, rfl⟩
  rcases h c hc with h0 | h1
  · rw [h0]; norm_num [Cell.toRat]
  · rw [h1]; norm_num [Cell.toRat]

theorem indicator_sum_pos_iff (cells : List Cell)
    (h : ∀ c ∈ cells, c = Cell.num 0 ∨ c = Cell.num 1) :
    (0 < (cells.map Cell.toRat).sum) ↔ Cell.num 1 ∈ cells := by
  induction cells with
  | nil => simp
  | cons a l ih =>
    have hl : ∀ c ∈ l, c = Cell.num 0 ∨ c = Cell.num 1 :=
      fun c hc => h c (List.mem_cons_of_mem a hc)
    rcases h a (List.mem_cons_self a l) with h0 | h1
    · subst h0
      have hne : Cell.num 1 ∉ ([Cell.num 0] : List Cell) := by decide
      simp only [List.map_cons, List.sum_cons, List.mem_cons]
      rw [show Cell.toRat (Cell.num 0) = 0 from rfl, zero_add]
      rw [ih hl]
      constructor
      · exact Or.inr
      · rintro (hbad | hmem)
        · exact absurd hbad.symm (by decide)
        · exact hmem
    · subst h1
      simp only [List.map_cons, List.sum_cons, List.mem_cons]
      constructor
      · intro _
        simp
      · intro _
        rw [show Cell.toRat (Cell.num 1) = 1 from rfl]
        have := indicator_sum_nonneg l hl
        linarith

/-- C7: when every submission column (after dropping the row-id column)
is numeric and the solution columns are 0/1 ground-truth indicators,
the columns selected by the code's `solution_sums > 0` test are exactly
the label columns with at least one positive ground-truth row; when no
such column exists the call fails with the assertion; otherwise it
returns the macro-averaged ROC-AUC over exactly those columns. -/
theorem score_macro_over_positive_columns
    (solution submission : DataFrame) (rowId : String)
    (hnum : ¬ frameNumeric (dropCol submission rowId) = false)
    (hind : ∀ col ∈ (dropCol solution rowId).cols, ∀ c ∈ col.2,
      c = Cell.num 0 ∨ c = Cell.num 1) :
    ((dropCol solution rowId).cols.filter
        (fun c => decide (0 < (c.2.map Cell.toRat).sum)) =
      positiveColumns (dropCol solution rowId)) ∧
    (positiveColumns (dropCol solution rowId) = [] →
      (score solution submission rowId).result =
        Except.error ScoreErr.assertionFailed) ∧
    (positiveColumns (dropCol solution rowId) ≠ [] →
      (score solution submission rowId).result =
        Except.ok (macroAuc (dropCol solution rowId)
          (dropCol submission rowId)
          ((positiveColumns (dropCol solution rowId)).map Prod.fst))) := by
  have hfilter : (dropCol solution rowId).cols.filter
      (fun c => decide (0 < (c.2.map Cell.toRat).sum)) =
      positiveColumns (dropCol solution rowId) := by
    unfold positiveColumns
    apply List.filter_congr
    intro col hcol
    have := indicator_sum_pos_iff col.2 (hind col hcol)
    simp [this]
  refine ⟨hfilter, ?_, ?_⟩
  · intro hempty
    simp only [score, if_neg hnum]
    rw [hfilter, hempty]
    rfl
  · intro hne
    simp only [score, if_neg hnum]
    rw [hfilter]
    have hlen : ¬ ((positiveColumns (dropCol solution rowId)).map
        Prod.fst).length = 0 := by
      simp only [List.length_map, List.length_eq_zero]
      exact hne
    rw [if_neg hlen]
    rfl

/-- Witness for C7: a solution with one all-zero label column and one
column with a positive row, against a numeric submission — the score is
the macro AUC over just the positive column. -/
theorem score_macro_over_positive_columns_witness :
    (¬ frameNumeric (dropCol
      ⟨[("id", [Cell.num 0]), ("a", [Cell.num (1 : ℚ)]),
        ("b", [Cell.num 0])]⟩ "id") = false) ∧
    (score ⟨[("id", [Cell.num 0]), ("a", [Cell.num 1]), ("b", [Cell.num 0])]⟩
        ⟨[("id", [Cell.num 0]), ("a", [Cell.num 1]), ("b", [Cell.num 0])]⟩
        "id").result =
      Except.ok (macroAuc
        (dropCol ⟨[("id", [Cell.num 0]), ("a", [Cell.num 1]),
          ("b", [Cell.num 0])]⟩ "id")
        (dropCol ⟨[("id", [Cell.num 0]), ("a", [Cell.num 1]),
          ("b", [Cell.num 0])]⟩ "id")
        ((positiveColumns (dropCol ⟨[("id", [Cell.num 0]),
          ("a", [Cell.num 1]), ("b", [Cell.num 0])]⟩ "id")).map
            Prod.fst)) :=
  ⟨by decide,
   (score_macro_over_positive_columns
      ⟨[("id", [Cell.num 0]), ("a", [Cell.num 1]), ("b", [Cell.num 0])]⟩
      ⟨[("id", [Cell.num 0]), ("a", [Cell.num 1]), ("b", [Cell.num 0])]⟩
      "id" (by decide) (by decide)).2.2 (by decide)⟩
/-! ## Claim theorems: CRNN forward pass -/

/-- C8: for a batch of shape (B, 1, 128, 256) the CRNN forward pass
produces an output of shape (B, num_classes), threading every layer's
shape arithmetic; the softmax-normalized attention weights of each
example sum to exactly 1 across the 32 time steps (the embedding works
over exact rationals, so the floating-point tolerance is not needed,
and uses only the positivity of the exponentiated scores); and the
pooled context vector is the attention-weighted sum of the per-step
hidden vectors of size 512. -/
theorem crnn_forward_shape_and_attention (B C : Nat) :
    crnnForwardShape C [B, 1, 128, 256] = some [B, C] ∧
    (∀ exps : Fin 32 → ℚ, (∀ i, 0 < exps i) →
      ∑ i, softmax exps i = 1) ∧
    (∀ (exps : Fin 32 → ℚ) (g : Fin 32 → Fin 512 → ℚ) (j : Fin 512),
      bmmRow (softmax exps) g j = ∑ t, softmax exps t * g t j) := by
  refine ⟨?_, ?_, ?_⟩
  · have h1 : featuresShape [B, 1, 128, 256] = some [B, 256, 16, 32] := rfl
    have h8 : bmmShape [B, 1, 32] [B, 32, 512] = some [B, 1, 512] := by
      simp [bmmShape]
    simp only [crnnForwardShape, h1, Option.bind_eq_bind, Option.some_bind]
    show (do
      let g ← some [B, 32, 512]
      let a1 ← linear3Shape (gru_hidden_size * 2) 64 g
      let a2 ← linear3Shape 64 1 a1
      let aw ← squeezeLast a2
      let awU ← unsqueeze1 aw
      let ctx3 ← bmmShape awU g
      let ctx ← squeeze1 ctx3
      let c1 ← linear2Shape (gru_hidden_size * 2) 512 ctx
      let c2 ← batchNorm1dShape 512 c1
      linear2Shape 512 C c2) = some [B, C]
    simp only [Option.bind_eq_bind, Option.some_bind]
    show (do
      let ctx3 ← bmmShape [B, 1, 32] [B, 32, 512]
      let ctx ← squeeze1 ctx3
      let c1 ← linear2Shape (gru_hidden_size * 2) 512 ctx
      let c2 ← batchNorm1dShape 512 c1
      linear2Shape 512 C c2) = some [B, C]
    rw [h8]
    rfl
  · intro exps hpos
    have hsum : 0 < ∑ j, exps j :=
      Finset.sum_pos (fun i _ => hpos i)
        ⟨(⟨0, by norm_num⟩ : Fin 32), Finset.mem_univ _⟩
    simp only [softmax]
    rw [← Finset.sum_div]
    exact div_self (ne_of_gt hsum)
  · intro exps g j
    rfl

/-- Witness for C8 at batch size 8, 206 classes, and uniform
exponentiated scores: the output shape is (8, 206) and the attention
weights sum to 1. -/
theorem crnn_forward_shape_and_attention_witness :
    (∀ i, 0 < (fun _ : Fin 32 => (1 : ℚ)) i) ∧
    crnnForwardShape 206 [8, 1, 128, 256] = some [8, 206] ∧
    ∑ i, softmax (fun _ : Fin 32 => (1 : ℚ)) i = 1 :=
  ⟨fun _ => one_pos,
   (crnn_forward_shape_and_attention 8 206).1,
   (crnn_forward_shape_and_attention 8 206).2.1 (fun _ => (1 : ℚ))
     (fun _ => one_pos)⟩

end CrnnAudio
